import Mathlib

/-! StableDeinterlacer (hybrid_deinterlacer.cpp): row classification and reconstruction.

A shallow embedding of `cubic_interpolate` and of the per-plane loop nest of
`deinterlaceGetFrame`.

* C `int` / `ptrdiff_t` values are `Int`; C `%` and `/` are `Int.tmod` and `Int.tdiv`
  (truncating), conversions to `uint8_t` reduce modulo `256`.
* Plane memory is a function from the offset relative to the plane pointer to the byte
  stored there (`rp_c[i]`, `wp[i]`).
* The `double` arithmetic of `cubic_interpolate` is carried out in `ℚ`.  The coefficients
  `0.0625 = 1/16` and `0.5625 = 9/16` are dyadic, so for samples in `[0, 255]` every
  intermediate value is a multiple of `1/16` of magnitude below `2 ^ 12`; such values are
  exactly representable in binary64 and no IEEE operation rounds (see
  `cubic_intermediates_dyadic`).
* The loop nest is unfolded into the list of byte stores it executes, in program order;
  each store records the branch that produced it and the source cells it read.
* `deinterlaceCreate` is a function from the argument map to the error and the filters it
  leaves on the output map.
-/

namespace HybridDeinterlacer

/-! ## The cubic kernel -/

/-- The C++ `std::clamp(v, lo, hi)`, i.e. `(v < lo) ? lo : (hi < v) ? hi : v`. -/
def clamp (v lo hi : ℚ) : ℚ :=
  if v < lo then lo else if hi < v then hi else v

/-- Conversion of an `int` to `uint8_t`: reduction modulo `2 ^ 8`. -/
def intToU8 (v : Int) : Nat :=
  (v % 256).toNat

/-- The conversion `static_cast<uint8_t>(v)` of a `double`: the fractional part is discarded
(truncation toward zero) and the low eight bits are kept. -/
def doubleToU8 (v : ℚ) : Nat :=
  intToU8 (Int.tdiv v.num v.den)

/-- The function `cubic_interpolate` (source lines 15-18). -/
def cubic_interpolate (p0 p1 p2 p3 : Int) : Nat :=
  let result : ℚ := -0.0625 * p0 + 0.5625 * p1 + 0.5625 * p2 - 0.0625 * p3
  doubleToU8 (clamp (result + 0.5) 0.0 255.0)

/-! ## Field selector (source lines 46-50) -/

/-- The local `line_is_top_field = (y % 2 == 0)`. -/
def line_is_top_field (y : Int) : Bool :=
  decide (Int.tmod y 2 = 0)

/-- The local `field = n % 2`. -/
def field (n : Int) : Int :=
  Int.tmod n 2

/-- The local `output_is_based_on_top_field = d->tff ? (field == 0) : (field == 1)`. -/
def output_is_based_on_top_field (tff n : Int) : Bool :=
  if tff ≠ 0 then decide (field n = 0) else decide (field n = 1)

/-- The condition of the `if` on source line 50: the row is copied from the source. -/
def isMainRow (tff n y : Int) : Bool :=
  (line_is_top_field y && output_is_based_on_top_field tff n) ||
    (!line_is_top_field y && !output_is_based_on_top_field tff n)

/-! ## The row loop (source lines 45-86) -/

/-- The assignment statements of the row loop. -/
inductive Branch where
  | copy
  | cubic
  | edgeTop
  | edgeBottom
  | linear
  deriving DecidableEq, Repr

/-- A source cell named by an index expression `rp_c[row * stride + col]`. -/
structure Access where
  row : Int
  col : Int
  deriving DecidableEq, Repr

/-- One executed assignment `wp[offset] = value`, with the branch it belongs to and the source
cells read to compute the value. -/
structure Store where
  branch : Branch
  reads : List Access
  offset : Int
  value : Nat

/-- The read `rp_c[row * stride + col]`. -/
def load (rp : Int → Nat) (stride row col : Int) : Nat :=
  rp (row * stride + col)

/-- Body of the inner loop on source line 52 (main row). -/
def copyPixel (rp : Int → Nat) (stride y x : Int) : Store :=
  { branch := Branch.copy
    reads := [⟨y, x⟩]
    offset := y * stride + x
    value := load rp stride y x }

/-- Body of the inner loop on source lines 55-84 (row to be interpolated). -/
def reconstructPixel (rp : Int → Nat) (h stride y x : Int) : Store :=
  if y ≥ 3 ∧ y < h - 3 then
    let p0 : Int := load rp stride (y - 3) x
    let p1 : Int := load rp stride (y - 1) x
    let p2 : Int := load rp stride (y + 1) x
    let p3 : Int := load rp stride (y + 3) x
    { branch := Branch.cubic
      reads := [⟨y - 3, x⟩, ⟨y - 1, x⟩, ⟨y + 1, x⟩, ⟨y + 3, x⟩]
      offset := y * stride + x
      value := cubic_interpolate p0 p1 p2 p3 }
  else if y = 0 then
    { branch := Branch.edgeTop
      reads := [⟨y + 1, x⟩]
      offset := y * stride + x
      value := load rp stride (y + 1) x }
  else if y = h - 1 then
    { branch := Branch.edgeBottom
      reads := [⟨y - 1, x⟩]
      offset := y * stride + x
      value := load rp stride (y - 1) x }
  else
    { branch := Branch.linear
      reads := [⟨y - 1, x⟩, ⟨y + 1, x⟩]
      offset := y * stride + x
      value := intToU8 (Int.tdiv ((load rp stride (y - 1) x : Int) + load rp stride (y + 1) x) 2) }

/-- The assignment executed for row `y`, column `x`. -/
def pixel (rp : Int → Nat) (tff n h stride y x : Int) : Store :=
  if isMainRow tff n y then copyPixel rp stride y x else reconstructPixel rp h stride y x

/-- The values taken by a loop `for (int i = 0; i < m; i++)`. -/
def loopRange (m : Int) : List Int :=
  (List.range m.toNat).map Int.ofNat

/-- Body of the loop over `y` (source lines 46-85): the stores of one row, in column order. -/
def processRow (rp : Int → Nat) (tff n h w stride y : Int) : List Store :=
  if isMainRow tff n y then
    (loopRange w).map fun x => copyPixel rp stride y x
  else
    (loopRange w).map fun x => reconstructPixel rp h stride y x

/-- The loop over `y` (source lines 45-86): all stores of one plane, in program order. -/
def processPlane (rp : Int → Nat) (tff n h w stride : Int) : List Store :=
  (loopRange h).flatMap fun y => processRow rp tff n h w stride y

/-- The assignment `wp[o] = v`. -/
def writeByte (wp : Int → Nat) (o : Int) (v : Nat) : Int → Nat :=
  fun i => if i = o then v else wp i

/-- Destination memory after executing a list of stores. -/
def runStores (wp : Int → Nat) (l : List Store) : Int → Nat :=
  l.foldl (fun m s => writeByte m s.offset s.value) wp

/-- Destination plane memory after the row loop, starting from the memory `wp` handed out by
`newVideoFrame`. -/
def planeOutput (rp wp : Int → Nat) (tff n h w stride : Int) : Int → Nat :=
  runStores wp (processPlane rp tff n h w stride)

/-- The sample at row `y`, column `x` of a plane with the given stride. -/
def sample (buf : Int → Nat) (stride y x : Int) : Nat :=
  buf (y * stride + x)

/-! ## Frame level (source lines 26-34) -/

/-- The local `src_n = n / 2`. -/
def src_n (n : Int) : Int :=
  Int.tdiv n 2

/-- One plane of a source frame: `getFrameHeight`, `getFrameWidth`, `getStride`, `getReadPtr`. -/
structure SrcPlane where
  h : Int
  w : Int
  stride : Int
  rp : Int → Nat

/-- The activation reasons `deinterlaceGetFrame` distinguishes. -/
inductive ActivationReason where
  | arInitial
  | arAllFramesReady
  | arError

/-- What one call of `deinterlaceGetFrame` does: request a source frame and return `NULL`,
fetch a source frame and return the filled destination planes, or return `NULL`. -/
inductive FrameResult where
  | requested (src : Int)
  | produced (src : Int) (planes : List (Int → Nat))
  | null

/-- The function `deinterlaceGetFrame`; `clip` is the source node and `fresh` the content of
newly allocated plane memory. -/
def deinterlaceGetFrame (tff : Int) (clip : Int → List SrcPlane) (fresh : Int → Nat)
    (n : Int) (activationReason : ActivationReason) : FrameResult :=
  match activationReason with
  | ActivationReason.arInitial => FrameResult.requested (src_n n)
  | ActivationReason.arAllFramesReady =>
      FrameResult.produced (src_n n)
        ((clip (src_n n)).map fun p => planeOutput p.rp fresh tff n p.h p.w p.stride)
  | ActivationReason.arError => FrameResult.null

/-! ## Filter creation (source lines 100-124) -/

/-- Conversion of an integer value to `int` (32-bit two's complement). -/
def toInt32 (v : Int) : Int :=
  (v + 2147483648) % 4294967296 - 2147483648

/-- Conversion of an integer value to `int64_t` (64-bit two's complement). -/
def toInt64 (v : Int) : Int :=
  (v + 9223372036854775808) % 18446744073709551616 - 9223372036854775808

/-- Modelled from the spec: the type `VSVideoInfo` is declared in the VapourSynth header, which
is not among the sources; its fields are the format, the frame rate `fpsNum / fpsDen`
(`int64_t`), and `width`, `height`, `numFrames` (`int`).  The format descriptor is kept
abstract as `F`. -/
structure VSVideoInfo (F : Type) where
  format : F
  fpsNum : Int
  fpsDen : Int
  width : Int
  height : Int
  numFrames : Int

/-- A source node: what `getVideoInfo` and `getFrameFilter` return for it. -/
structure VSNode (F : Type) where
  vi : VSVideoInfo F
  frames : Int → List SrcPlane

/-- The argument map `in`: the result of `mapGetNode(in, "clip", 0, &err)` and of
`mapGetInt(in, "tff", 0, &err)` (an `int64_t`); `none` stands for a call that sets `err`. -/
structure InMap (F : Type) where
  clip : Option (VSNode F)
  tff : Option Int

/-- The struct `DeinterlaceData` (source lines 8-12). -/
structure DeinterlaceData (F : Type) where
  node : VSNode F
  vi : VSVideoInfo F
  tff : Int

/-- What `deinterlaceCreate` leaves behind: the error set by `mapSetError(out, ...)`, if any,
and the filters registered by `createVideoFilter` (name, video info, instance data). -/
structure OutMap (F : Type) where
  error : Option String
  filters : List (String × VSVideoInfo F × DeinterlaceData F)

/-- The function `deinterlaceCreate`.  The cast `(int)` of the `int64_t` argument keeps the low
32 bits; the products `*= 2` are reduced to the width of their fields. -/
def deinterlaceCreate {F : Type} (inMap : InMap F) : OutMap F :=
  match inMap.clip with
  | none => { error := some "StableDeinterlacer: clip is required.", filters := [] }
  | some node =>
      let vi := node.vi
      let tff : Int :=
        match inMap.tff with
        | some v => toInt32 v
        | none => 1
      let vi :=
        { vi with
          fpsNum := toInt64 (vi.fpsNum * 2)
          numFrames := toInt32 (vi.numFrames * 2) }
      let d : DeinterlaceData F := { node := node, vi := vi, tff := tff }
      { error := none, filters := [("StableDeinterlacer", d.vi, d)] }

/-- The frame callback of a created filter: `deinterlaceGetFrame` on its instance data. -/
def filterGetFrame {F : Type} (d : DeinterlaceData F) (fresh : Int → Nat) (n : Int)
    (activationReason : ActivationReason) : FrameResult :=
  deinterlaceGetFrame d.tff d.node.frames fresh n activationReason

/-! ## Spec-side definitions used in the statements -/

/-- Spec wording of the per-frame flag: with `top_field_first` set the frame is
top-field-main when `output_index mod 2 == 0`, otherwise when `output_index mod 2 == 1`. -/
def is_top_field_main_spec (n tff : Int) : Prop :=
  if tff ≠ 0 then n % 2 = 0 else n % 2 = 1

instance (n tff : Int) : Decidable (is_top_field_main_spec n tff) := by
  unfold is_top_field_main_spec
  infer_instance

/-- Spec wording of the kernel: `clamp(floor(v + 1/2), 0, 255)` with
`v = (-p0 + 9*p1 + 9*p2 - p3) / 16` an exact rational. -/
def cubic_round_clamp_spec (p0 p1 p2 p3 : Int) : Int :=
  let v : ℚ := ((-p0 + 9 * p1 + 9 * p2 - p3 : Int) : ℚ) / 16
  max 0 (min 255 ⌊v + 1 / 2⌋)

/-- A rational that is a multiple of `1/16` with numerator below `2 ^ 16` in magnitude:
exactly representable as a binary64 value. -/
def dyadic16 (q : ℚ) : Prop :=
  ∃ k : Int, q = (k : ℚ) / 16 ∧ -65536 < k ∧ k < 65536

/-- The values `cubic_interpolate` forms on the way to its result: the four products, the
partial sums, and `result + 0.5`. -/
def cubic_intermediates (p0 p1 p2 p3 : Int) : List ℚ :=
  [-0.0625 * p0, 0.5625 * p1, 0.5625 * p2, 0.0625 * p3,
    -0.0625 * p0 + 0.5625 * p1,
    -0.0625 * p0 + 0.5625 * p1 + 0.5625 * p2,
    -0.0625 * p0 + 0.5625 * p1 + 0.5625 * p2 - 0.0625 * p3,
    -0.0625 * p0 + 0.5625 * p1 + 0.5625 * p2 - 0.0625 * p3 + 0.5]

/-- The four row classes named by the spec. -/
inductive RowClass where
  | mainCopy
  | tier1Cubic
  | edgeCopy
  | tier4Linear
  deriving DecidableEq, Repr

/-- The class a branch of the row loop belongs to (both edge branches are "edge copy"). -/
def Branch.rowClass : Branch → RowClass
  | Branch.copy => RowClass.mainCopy
  | Branch.cubic => RowClass.tier1Cubic
  | Branch.edgeTop => RowClass.edgeCopy
  | Branch.edgeBottom => RowClass.edgeCopy
  | Branch.linear => RowClass.tier4Linear

/-- Spec wording of the tier-1 range: `y >= 3 and y < height - 3`. -/
def tier1_range (h y : Int) : Prop :=
  y ≥ 3 ∧ y < h - 3

/-- Spec wording of the conditions of the four classes, each stated by position alone:
main rows are copied; a non-main row is cubic in the tier-1 range, an edge copy when
`y == 0` or `y == height - 1`, and linear when it is neither. -/
def rowClassApplies (tff n h y : Int) : RowClass → Prop
  | RowClass.mainCopy => isMainRow tff n y = true
  | RowClass.tier1Cubic => isMainRow tff n y = false ∧ tier1_range h y
  | RowClass.edgeCopy => isMainRow tff n y = false ∧ (y = 0 ∨ y = h - 1)
  | RowClass.tier4Linear =>
      isMainRow tff n y = false ∧ ¬ tier1_range h y ∧ ¬ (y = 0 ∨ y = h - 1)

/-- The source rows each branch reads for row `y`, as listed by the spec: `y` for the copy,
`y-3, y-1, y+1, y+3` for the cubic tier, `y+1` at the top edge, `y-1` at the bottom edge,
`y-1, y+1` for the linear tier. -/
def branchRows (y : Int) : Branch → List Int
  | Branch.copy => [y]
  | Branch.cubic => [y - 3, y - 1, y + 1, y + 3]
  | Branch.edgeTop => [y + 1]
  | Branch.edgeBottom => [y - 1]
  | Branch.linear => [y - 1, y + 1]

/-- Spec wording of the 4-tap validity condition: the rows `y-3, y-1, y+1, y+3` all exist and
are valid indices of a plane of height `h`. -/
def four_taps_valid (h y : Int) : Prop :=
  ∀ r ∈ [y - 3, y - 1, y + 1, y + 3], 0 ≤ r ∧ r < h

/-- Spec wording of the linear-tier rows: `y` in `{1,2}` or `{height-2, height-3}`. -/
def near_edge_row (h y : Int) : Prop :=
  y = 1 ∨ y = 2 ∨ y = h - 2 ∨ y = h - 3

/-- The video info of the source clip with frame count and frame-rate numerator doubled. -/
def doubled_info_spec {F : Type} (vi : VSVideoInfo F) : VSVideoInfo F :=
  { format := vi.format
    fpsNum := 2 * vi.fpsNum
    fpsDen := vi.fpsDen
    width := vi.width
    height := vi.height
    numFrames := 2 * vi.numFrames }

/-! ## Auxiliary facts -/

theorem tmod_two_eq_zero_iff (y : Int) : Int.tmod y 2 = 0 ↔ y % 2 = 0 := by
  rw [← Int.dvd_iff_tmod_eq_zero, Int.dvd_iff_emod_eq_zero]

theorem mem_loopRange (m i : Int) : i ∈ loopRange m ↔ 0 ≤ i ∧ i < m := by
  unfold loopRange
  simp only [List.mem_map, List.mem_range]
  constructor
  · rintro ⟨k, hk, rfl⟩
    have : (Int.ofNat k) = (k : Int) := rfl
    omega
  · rintro ⟨h0, h1⟩
    refine ⟨i.toNat, by omega, ?_⟩
    have : (Int.ofNat i.toNat) = (i.toNat : Int) := rfl
    omega

theorem loopRange_nodup (m : Int) : (loopRange m).Nodup := by
  unfold loopRange
  exact (List.nodup_range _).map (fun a b h => Int.ofNat.inj h)

theorem offset_inj {s w y x y' x' : Int} (hw : w ≤ s) (hx : 0 ≤ x) (hxw : x < w)
    (hx' : 0 ≤ x') (hxw' : x' < w) (h : y * s + x = y' * s + x') : y = y' ∧ x = x' := by
  have hy : y = y' := by
    rcases lt_trichotomy y y' with hlt | heq | hgt
    · exfalso
      have : (y + 1) * s ≤ y' * s := by
        apply mul_le_mul_of_nonneg_right <;> omega
      linarith
    · exact heq
    · exfalso
      have : (y' + 1) * s ≤ y * s := by
        apply mul_le_mul_of_nonneg_right <;> omega
      linarith
  subst hy
  exact ⟨rfl, by omega⟩

theorem processRow_eq (rp : Int → Nat) (tff n h w stride y : Int) :
    processRow rp tff n h w stride y = (loopRange w).map fun x => pixel rp tff n h stride y x := by
  unfold processRow pixel
  split <;> rfl

theorem pixel_offset (rp : Int → Nat) (tff n h stride y x : Int) :
    (pixel rp tff n h stride y x).offset = y * stride + x := by
  unfold pixel copyPixel reconstructPixel
  split_ifs <;> rfl

theorem mem_processPlane (rp : Int → Nat) (tff n h w stride : Int) (s : Store) :
    s ∈ processPlane rp tff n h w stride ↔
      ∃ y x, (0 ≤ y ∧ y < h) ∧ (0 ≤ x ∧ x < w) ∧ s = pixel rp tff n h stride y x := by
  unfold processPlane
  simp only [List.mem_flatMap, processRow_eq, List.mem_map, mem_loopRange]
  constructor
  · rintro ⟨y, hy, x, hx, rfl⟩
    exact ⟨y, x, hy, hx, rfl⟩
  · rintro ⟨y, x, hy, hx, rfl⟩
    exact ⟨y, hy, x, hx, rfl⟩

theorem processPlane_offsets (rp : Int → Nat) (tff n h w stride : Int) :
    (processPlane rp tff n h w stride).map Store.offset =
      (loopRange h).flatMap fun y => (loopRange w).map fun x => y * stride + x := by
  unfold processPlane
  rw [List.map_flatMap]
  congr 1
  funext y
  rw [processRow_eq, List.map_map]
  congr 1
  funext x
  exact pixel_offset rp tff n h stride y x

theorem processPlane_offsets_nodup (rp : Int → Nat) (tff n h w stride : Int) (hs : w ≤ stride) :
    ((processPlane rp tff n h w stride).map Store.offset).Nodup := by
  rw [processPlane_offsets, List.nodup_flatMap]
  constructor
  · intro y _
    refine (loopRange_nodup w).map_on ?_
    intro x hx x' hx' e
    rw [mem_loopRange] at hx hx'
    exact (offset_inj hs hx.1 hx.2 hx'.1 hx'.2 e).2
  · refine (loopRange_nodup h).pairwise_of_forall_ne ?_
    intro y _ y' _ hne o ho ho'
    simp only [List.mem_map, mem_loopRange] at ho ho'
    obtain ⟨x, hx, rfl⟩ := ho
    obtain ⟨x', hx', e⟩ := ho'
    exact hne (offset_inj hs hx.1 hx.2 hx'.1 hx'.2 e.symm).1

theorem runStores_of_not_mem (l : List Store) (wp : Int → Nat) (o : Int)
    (ho : o ∉ l.map Store.offset) : runStores wp l o = wp o := by
  induction l generalizing wp with
  | nil => rfl
  | cons s l ih =>
    simp only [List.map_cons, List.mem_cons, not_or] at ho
    show runStores (writeByte wp s.offset s.value) l o = wp o
    rw [ih _ ho.2]
    unfold writeByte
    rw [if_neg ho.1]

theorem runStores_of_mem (l : List Store) (wp : Int → Nat) (s : Store)
    (hnd : (l.map Store.offset).Nodup) (hs : s ∈ l) : runStores wp l s.offset = s.value := by
  induction l generalizing wp with
  | nil => simp at hs
  | cons t l ih =>
    simp only [List.map_cons, List.nodup_cons] at hnd
    show runStores (writeByte wp t.offset t.value) l s.offset = s.value
    rcases List.mem_cons.mp hs with rfl | hmem
    · rw [runStores_of_not_mem l _ _ hnd.1]
      unfold writeByte
      rw [if_pos rfl]
    · exact ih _ hnd.2 hmem

/-- After the row loop, the destination sample at an in-range `(y, x)` is the value of the
assignment executed for that row and column. -/
theorem planeOutput_sample (rp wp : Int → Nat) (tff n h w stride y x : Int) (hs : w ≤ stride)
    (hy0 : 0 ≤ y) (hyh : y < h) (hx0 : 0 ≤ x) (hxw : x < w) :
    sample (planeOutput rp wp tff n h w stride) stride y x =
      (pixel rp tff n h stride y x).value := by
  unfold sample planeOutput
  rw [← pixel_offset rp tff n h stride y x]
  apply runStores_of_mem _ _ _ (processPlane_offsets_nodup rp tff n h w stride hs)
  rw [mem_processPlane]
  exact ⟨y, x, ⟨hy0, hyh⟩, ⟨hx0, hxw⟩, rfl⟩

/-! ## Field selector facts -/

theorem line_is_top_field_iff (y : Int) : line_is_top_field y = true ↔ y % 2 = 0 := by
  unfold line_is_top_field
  rw [decide_eq_true_iff, tmod_two_eq_zero_iff]

theorem field_of_nonneg {n : Int} (hn : 0 ≤ n) : field n = n % 2 :=
  Int.tmod_eq_emod hn (by decide)

theorem output_is_based_on_top_field_iff {n : Int} (hn : 0 ≤ n) (tff : Int) :
    output_is_based_on_top_field tff n = true ↔ is_top_field_main_spec n tff := by
  unfold output_is_based_on_top_field is_top_field_main_spec
  rw [field_of_nonneg hn]
  split_ifs <;> simp

theorem isMainRow_iff' (tff n y : Int) :
    isMainRow tff n y = true ↔
      (y % 2 = 0 ↔ output_is_based_on_top_field tff n = true) := by
  unfold isMainRow
  rw [← line_is_top_field_iff]
  cases line_is_top_field y <;> cases output_is_based_on_top_field tff n <;> simp

theorem isMainRow_iff {n : Int} (hn : 0 ≤ n) (tff y : Int) :
    isMainRow tff n y = true ↔ (y % 2 = 0 ↔ is_top_field_main_spec n tff) := by
  rw [isMainRow_iff', output_is_based_on_top_field_iff hn]

theorem pixel_branch_copy_iff (rp : Int → Nat) (tff n h stride y x : Int) :
    (pixel rp tff n h stride y x).branch = Branch.copy ↔ isMainRow tff n y = true := by
  unfold pixel copyPixel reconstructPixel
  split_ifs <;> simp_all

theorem pixel_of_main (rp : Int → Nat) (tff n h stride y x : Int)
    (hm : isMainRow tff n y = true) :
    pixel rp tff n h stride y x = copyPixel rp stride y x := by
  unfold pixel
  rw [if_pos hm]

theorem pixel_of_not_main (rp : Int → Nat) (tff n h stride y x : Int)
    (hm : ¬ isMainRow tff n y = true) :
    pixel rp tff n h stride y x = reconstructPixel rp h stride y x := by
  unfold pixel
  rw [if_neg hm]

theorem isMainRow_succ {n : Int} (hn : 0 ≤ n) (tff y : Int) :
    isMainRow tff (n + 1) y = !isMainRow tff n y := by
  rw [Bool.eq_iff_iff, Bool.not_eq_true', ← Bool.not_eq_true, isMainRow_iff hn,
    isMainRow_iff (by omega : (0 : Int) ≤ n + 1)]
  unfold is_top_field_main_spec
  split_ifs <;> omega

theorem planeOutput_sample_of_main (rp wp : Int → Nat) (tff n h w stride y x : Int)
    (hs : w ≤ stride) (hy0 : 0 ≤ y) (hyh : y < h) (hx0 : 0 ≤ x) (hxw : x < w)
    (hm : isMainRow tff n y = true) :
    sample (planeOutput rp wp tff n h w stride) stride y x = sample rp stride y x := by
  rw [planeOutput_sample rp wp tff n h w stride y x hs hy0 hyh hx0 hxw,
    pixel_of_main rp tff n h stride y x hm]
  rfl

/-- The value of a store is a function of the source cells listed in its `reads`: two source
planes that agree on those cells give the same store. -/
theorem pixel_congr_reads (rp rq : Int → Nat) (tff n h stride y x : Int)
    (hagree : ∀ a ∈ (pixel rp tff n h stride y x).reads,
      rp (a.row * stride + a.col) = rq (a.row * stride + a.col)) :
    pixel rp tff n h stride y x = pixel rq tff n h stride y x := by
  revert hagree
  unfold pixel copyPixel reconstructPixel load
  split_ifs <;> intro hagree <;>
    simp only [List.mem_cons, List.mem_singleton, List.not_mem_nil, or_false, forall_eq_or_imp,
      forall_eq] at hagree <;>
    simp [hagree]

/-! ## Main-row copy -/

/-- C1: for a plane of height `h`, width `w` (row pitch `stride ≥ w`), every output index
`n ≥ 0`, every `tff` and every row `y` in `[0,h)` that is main for that output, the output
sample at `(y, x)` equals the source sample at `(y, x)` for every column `x` in `[0,w)`. -/
theorem main_row_copied (rp wp : Int → Nat) (tff n h w stride y x : Int) (hs : w ≤ stride)
    (hn : 0 ≤ n) (hy0 : 0 ≤ y) (hyh : y < h) (hx0 : 0 ≤ x) (hxw : x < w)
    (hmain : y % 2 = 0 ↔ is_top_field_main_spec n tff) :
    sample (planeOutput rp wp tff n h w stride) stride y x = sample rp stride y x :=
  planeOutput_sample_of_main rp wp tff n h w stride y x hs hy0 hyh hx0 hxw
    ((isMainRow_iff hn tff y).mpr hmain)

/-- Instance of C1: a 2-wide, 4-high plane with stride 3, output frame 1 with `tff = 1`
(odd rows main), row 3, column 1. -/
theorem main_row_copied_witness :
    sample (planeOutput (fun o => (7 * o.toNat + 1) % 256) (fun _ => 0) 1 1 4 2 3) 3 3 1 =
      sample (fun o => (7 * o.toNat + 1) % 256) 3 3 1 :=
  main_row_copied (fun o => (7 * o.toNat + 1) % 256) (fun _ => 0) 1 1 4 2 3 3 1
    (by decide) (by decide) (by decide) (by decide) (by decide) (by decide) (by decide)

/-! ## Cubic kernel -/

theorem intToU8_of_bounds {v : Int} (h0 : 0 ≤ v) (h1 : v ≤ 255) : (intToU8 v : Int) = v := by
  unfold intToU8
  omega

theorem doubleToU8_of_bounds {q : ℚ} (h0 : 0 ≤ q) (h1 : q ≤ 255) :
    (doubleToU8 q : Int) = ⌊q⌋ := by
  unfold doubleToU8
  have hnum : 0 ≤ q.num := Rat.num_nonneg.mpr h0
  rw [Int.tdiv_eq_ediv hnum (by exact_mod_cast Nat.zero_le _), ← Rat.floor_def]
  apply intToU8_of_bounds
  · exact Int.floor_nonneg.mpr h0
  · have : ⌊q⌋ ≤ ⌊(255 : ℚ)⌋ := Int.floor_mono h1
    simpa using this

theorem cubic_interpolate_eq_spec (p0 p1 p2 p3 : Int) :
    (cubic_interpolate p0 p1 p2 p3 : Int) = cubic_round_clamp_spec p0 p1 p2 p3 := by
  unfold cubic_interpolate cubic_round_clamp_spec
  simp only []
  have e : (-0.0625 * (p0 : ℚ) + 0.5625 * p1 + 0.5625 * p2 - 0.0625 * p3 + 0.5 : ℚ) =
      ((-p0 + 9 * p1 + 9 * p2 - p3 : Int) : ℚ) / 16 + 1 / 2 := by
    push_cast
    norm_num
    ring
  rw [e]
  generalize ((-p0 + 9 * p1 + 9 * p2 - p3 : Int) : ℚ) / 16 + 1 / 2 = q
  have z : (0.0 : ℚ) = 0 := by norm_num
  have t : (255.0 : ℚ) = 255 := by norm_num
  rw [z, t]
  unfold clamp
  split_ifs with hlo hhi
  · have : ⌊q⌋ < 0 := Int.floor_lt.mpr (by exact_mod_cast hlo)
    rw [doubleToU8_of_bounds le_rfl (by norm_num)]
    simp only [Int.floor_zero]
    omega
  · have : (255 : Int) ≤ ⌊q⌋ := Int.le_floor.mpr (by exact_mod_cast hhi.le)
    rw [doubleToU8_of_bounds (by norm_num) le_rfl]
    have : ⌊(255 : ℚ)⌋ = 255 := by exact_mod_cast Int.floor_intCast (255 : Int)
    omega
  · push_neg at hlo hhi
    rw [doubleToU8_of_bounds hlo hhi]
    have h0 : 0 ≤ ⌊q⌋ := Int.floor_nonneg.mpr hlo
    have h1 : ⌊q⌋ ≤ ⌊(255 : ℚ)⌋ := Int.floor_mono hhi
    have : ⌊(255 : ℚ)⌋ = 255 := by exact_mod_cast Int.floor_intCast (255 : Int)
    omega

/-- For samples in `[0, 255]` every intermediate value of `cubic_interpolate` is a multiple of
`1/16` of small magnitude, so the binary64 computation of the source is exact. -/
theorem cubic_intermediates_dyadic (p0 p1 p2 p3 : Int)
    (h0 : 0 ≤ p0 ∧ p0 ≤ 255) (h1 : 0 ≤ p1 ∧ p1 ≤ 255)
    (h2 : 0 ≤ p2 ∧ p2 ≤ 255) (h3 : 0 ≤ p3 ∧ p3 ≤ 255) :
    ∀ q ∈ cubic_intermediates p0 p1 p2 p3, dyadic16 q := by
  intro q hq
  simp only [cubic_intermediates, List.mem_cons, List.mem_singleton, List.not_mem_nil,
    or_false] at hq
  rcases hq with rfl | rfl | rfl | rfl | rfl | rfl | rfl | rfl
  · exact ⟨-p0, by push_cast; norm_num; ring, by omega, by omega⟩
  · exact ⟨9 * p1, by push_cast; norm_num; ring, by omega, by omega⟩
  · exact ⟨9 * p2, by push_cast; norm_num; ring, by omega, by omega⟩
  · exact ⟨p3, by norm_num; ring, by omega, by omega⟩
  · exact ⟨-p0 + 9 * p1, by push_cast; norm_num; ring, by omega, by omega⟩
  · exact ⟨-p0 + 9 * p1 + 9 * p2, by push_cast; norm_num; ring, by omega, by omega⟩
  · exact ⟨-p0 + 9 * p1 + 9 * p2 - p3, by push_cast; norm_num; ring, by omega, by omega⟩
  · exact ⟨-p0 + 9 * p1 + 9 * p2 - p3 + 8, by push_cast; norm_num; ring, by omega, by omega⟩

/-- C2: for samples `p0..p3` in `[0,255]`, `cubic_interpolate` returns
`clamp(floor(v + 1/2), 0, 255)` with `v = (-p0 + 9*p1 + 9*p2 - p3)/16` an exact rational
(every intermediate value is a small multiple of `1/16`); the value is at most `255`, so the
conversion to 8 bits does not wrap. -/
theorem cubic_kernel_exact (p0 p1 p2 p3 : Int)
    (h0 : 0 ≤ p0 ∧ p0 ≤ 255) (h1 : 0 ≤ p1 ∧ p1 ≤ 255)
    (h2 : 0 ≤ p2 ∧ p2 ≤ 255) (h3 : 0 ≤ p3 ∧ p3 ≤ 255) :
    (cubic_interpolate p0 p1 p2 p3 : Int) = cubic_round_clamp_spec p0 p1 p2 p3 ∧
      cubic_interpolate p0 p1 p2 p3 ≤ 255 ∧
      (∀ q ∈ cubic_intermediates p0 p1 p2 p3, dyadic16 q) := by
  have e := cubic_interpolate_eq_spec p0 p1 p2 p3
  refine ⟨e, ?_, cubic_intermediates_dyadic p0 p1 p2 p3 h0 h1 h2 h3⟩
  have : cubic_round_clamp_spec p0 p1 p2 p3 ≤ 255 := by
    unfold cubic_round_clamp_spec
    simp only []
    omega
  omega

/-- The hand-computed value of C2: `p0=0, p1=100, p2=200, p3=255` gives `153`. -/
theorem cubic_kernel_exact_witness :
    cubic_interpolate 0 100 200 255 = 153 ∧ cubic_interpolate 0 100 200 255 ≤ 255 := by
  have h := cubic_kernel_exact 0 100 200 255 (by decide) (by decide) (by decide) (by decide)
  have v : cubic_round_clamp_spec 0 100 200 255 = 153 := by
    unfold cubic_round_clamp_spec
    norm_num
  rw [v] at h
  exact ⟨by exact_mod_cast h.1, h.2.1⟩

/-! ## Row classification -/

theorem pixel_rowClass_iff (rp : Int → Nat) (tff n h stride y x : Int) (c : RowClass) :
    (pixel rp tff n h stride y x).branch.rowClass = c ↔ rowClassApplies tff n h y c := by
  by_cases hm : isMainRow tff n y = true
  · rw [pixel_of_main rp tff n h stride y x hm]
    cases c <;> simp [copyPixel, Branch.rowClass, rowClassApplies, hm]
  · rw [pixel_of_not_main rp tff n h stride y x hm]
    have hm' : isMainRow tff n y = false := by simpa using hm
    unfold reconstructPixel
    split_ifs with hc ht hb
    · have h0 : ¬ (y = 0 ∨ y = h - 1) := by omega
      cases c <;> simp [Branch.rowClass, rowClassApplies, tier1_range, hm', hc, h0]
    · have h0 : y = 0 ∨ y = h - 1 := Or.inl ht
      cases c <;> simp [Branch.rowClass, rowClassApplies, tier1_range, hm', hc, h0]
    · have h0 : y = 0 ∨ y = h - 1 := Or.inr hb
      cases c <;> simp [Branch.rowClass, rowClassApplies, tier1_range, hm', hc, h0]
    · have h0 : ¬ (y = 0 ∨ y = h - 1) := by omega
      cases c <;> simp [Branch.rowClass, rowClassApplies, tier1_range, hm', hc, h0]

/-- C3: for every height `h ≥ 1`, every row `y` in `[0,h)` and either field parity, exactly
one of the four position conditions {main-row copy, tier-1 cubic, edge copy (`y = 0` or
`y = h - 1`), tier-4 linear} applies to the row, and it is the class of the branch the row
loop executes for every column of that row. -/
theorem classification_total_exclusive (rp : Int → Nat) (tff n h stride y x : Int)
    (hh : 1 ≤ h) (hy0 : 0 ≤ y) (hyh : y < h) :
    (∃! c : RowClass, rowClassApplies tff n h y c) ∧
      rowClassApplies tff n h y (pixel rp tff n h stride y x).branch.rowClass := by
  have key := pixel_rowClass_iff rp tff n h stride y x
  refine ⟨⟨(pixel rp tff n h stride y x).branch.rowClass, (key _).mp rfl, ?_⟩, (key _).mp rfl⟩
  intro c hc
  exact ((key c).mpr hc).symm

/-- Instance of C3: height 8, row 3, output frame 0 with `tff = 1`; the row is cubic. -/
theorem classification_total_exclusive_witness :
    (∃! c : RowClass, rowClassApplies 1 0 8 3 c) ∧
      rowClassApplies 1 0 8 3 (pixel (fun _ => 0) 1 0 8 1 3 0).branch.rowClass :=
  classification_total_exclusive (fun _ => 0) 1 0 8 1 3 0 (by decide) (by decide) (by decide)

/-! ## Field selector -/

/-- C4: for every output index `n ≥ 0`, every `tff` and every row `y ≥ 0`, the copy branch is
taken iff `(y is even) == is_top_field_main`, where `is_top_field_main` is `n mod 2 == 0`
when `tff` is non-zero and `n mod 2 == 1` when `tff` is zero; hence the main rows under
`tff` unset are exactly the rows that are not main under `tff` set. -/
theorem field_selector_definition (rp : Int → Nat) (tff n h stride y x : Int)
    (hn : 0 ≤ n) (hy : 0 ≤ y) :
    ((pixel rp tff n h stride y x).branch = Branch.copy ↔
        (y % 2 = 0 ↔ is_top_field_main_spec n tff)) ∧
      (is_top_field_main_spec n tff ↔ if tff ≠ 0 then n % 2 = 0 else n % 2 = 1) ∧
      (tff ≠ 0 →
        ((pixel rp 0 n h stride y x).branch = Branch.copy ↔
          ¬ (pixel rp tff n h stride y x).branch = Branch.copy)) := by
  refine ⟨?_, Iff.rfl, ?_⟩
  · rw [pixel_branch_copy_iff, isMainRow_iff hn]
  · intro ht
    rw [pixel_branch_copy_iff, pixel_branch_copy_iff, isMainRow_iff hn, isMainRow_iff hn]
    unfold is_top_field_main_spec
    simp only [ne_eq, not_true_eq_false, if_false, ht, not_false_eq_true, if_true]
    omega

/-- Instance of C4: output frame 3 with `tff = 1`, row 5 of a plane of height 8. -/
theorem field_selector_definition_witness :
    ((pixel (fun _ => 0) 1 3 8 1 5 0).branch = Branch.copy ↔
        ((5 : Int) % 2 = 0 ↔ is_top_field_main_spec 3 1)) ∧
      (is_top_field_main_spec 3 1 ↔ if (1 : Int) ≠ 0 then (3 : Int) % 2 = 0 else (3 : Int) % 2 = 1) ∧
      ((1 : Int) ≠ 0 →
        ((pixel (fun _ => 0) 0 3 8 1 5 0).branch = Branch.copy ↔
          ¬ (pixel (fun _ => 0) 1 3 8 1 5 0).branch = Branch.copy)) :=
  field_selector_definition (fun _ => 0) 1 3 8 1 5 0 (by decide) (by decide)

/-! ## Output pairs -/

/-- C5: for every `k ≥ 0` and every `tff`, output frames `2k` and `2k+1` both request and read
source frame `k`, each row is main in exactly one of the two outputs (so every source row is
copied verbatim in exactly one of them), and with `tff` set output `2k` has the even rows main
and output `2k+1` the odd rows (with `tff` unset the order is swapped). -/
theorem output_pair_parity (tff k : Int) (clip : Int → List SrcPlane) (fresh : Int → Nat)
    (hk : 0 ≤ k) :
    (src_n (2 * k) = k ∧ src_n (2 * k + 1) = k) ∧
      (deinterlaceGetFrame tff clip fresh (2 * k) ActivationReason.arInitial =
          FrameResult.requested k ∧
        deinterlaceGetFrame tff clip fresh (2 * k + 1) ActivationReason.arInitial =
          FrameResult.requested k) ∧
      (deinterlaceGetFrame tff clip fresh (2 * k) ActivationReason.arAllFramesReady =
          FrameResult.produced k
            ((clip k).map fun p => planeOutput p.rp fresh tff (2 * k) p.h p.w p.stride) ∧
        deinterlaceGetFrame tff clip fresh (2 * k + 1) ActivationReason.arAllFramesReady =
          FrameResult.produced k
            ((clip k).map fun p => planeOutput p.rp fresh tff (2 * k + 1) p.h p.w p.stride)) ∧
      (∀ y : Int, isMainRow tff (2 * k + 1) y = !isMainRow tff (2 * k) y) ∧
      (tff ≠ 0 → ∀ y : Int,
        (isMainRow tff (2 * k) y = true ↔ y % 2 = 0) ∧
          (isMainRow tff (2 * k + 1) y = true ↔ y % 2 = 1)) ∧
      (tff = 0 → ∀ y : Int,
        (isMainRow tff (2 * k) y = true ↔ y % 2 = 1) ∧
          (isMainRow tff (2 * k + 1) y = true ↔ y % 2 = 0)) ∧
      (∀ (rp : Int → Nat) (h w stride y x : Int), w ≤ stride → 0 ≤ y → y < h → 0 ≤ x → x < w →
        ((pixel rp tff (2 * k) h stride y x).branch = Branch.copy ∧
            (pixel rp tff (2 * k + 1) h stride y x).branch ≠ Branch.copy ∧
            sample (planeOutput rp fresh tff (2 * k) h w stride) stride y x =
              sample rp stride y x) ∨
          ((pixel rp tff (2 * k + 1) h stride y x).branch = Branch.copy ∧
            (pixel rp tff (2 * k) h stride y x).branch ≠ Branch.copy ∧
            sample (planeOutput rp fresh tff (2 * k + 1) h w stride) stride y x =
              sample rp stride y x)) := by
  have h0 : (0 : Int) ≤ 2 * k := by omega
  have h1 : (0 : Int) ≤ 2 * k + 1 := by omega
  have s0 : src_n (2 * k) = k := by
    unfold src_n
    rw [Int.tdiv_eq_ediv h0 (by decide)]
    omega
  have s1 : src_n (2 * k + 1) = k := by
    unfold src_n
    rw [Int.tdiv_eq_ediv h1 (by decide)]
    omega
  have m0 : ∀ y : Int, isMainRow tff (2 * k) y = true ↔
      (y % 2 = 0 ↔ if tff ≠ 0 then (2 * k) % 2 = 0 else (2 * k) % 2 = 1) :=
    fun y => isMainRow_iff h0 tff y
  have m1 : ∀ y : Int, isMainRow tff (2 * k + 1) y = true ↔
      (y % 2 = 0 ↔ if tff ≠ 0 then (2 * k + 1) % 2 = 0 else (2 * k + 1) % 2 = 1) :=
    fun y => isMainRow_iff h1 tff y
  refine ⟨⟨s0, s1⟩, ?_, ?_, ?_, ?_, ?_, ?_⟩
  · simp only [deinterlaceGetFrame, s0, s1, and_self]
  · simp only [deinterlaceGetFrame, s0, s1, and_self]
  · intro y
    exact isMainRow_succ h0 tff y
  · intro ht y
    rw [m0, m1]
    simp only [ne_eq, ht, not_false_eq_true, if_true]
    omega
  · intro ht y
    rw [m0, m1]
    simp only [ne_eq, ht, not_true_eq_false, if_false]
    omega
  · intro rp h w stride y x hs hy0 hyh hx0 hxw
    have hc := isMainRow_succ h0 tff y
    have b0 := pixel_branch_copy_iff rp tff (2 * k) h stride y x
    have b1 := pixel_branch_copy_iff rp tff (2 * k + 1) h stride y x
    cases e : isMainRow tff (2 * k) y
    · right
      have e1 : isMainRow tff (2 * k + 1) y = true := by rw [hc, e]; rfl
      refine ⟨b1.mpr e1, fun hcopy => ?_, ?_⟩
      · have hmain := b0.mp hcopy
        rw [e] at hmain
        exact Bool.noConfusion hmain
      · exact planeOutput_sample_of_main rp fresh tff (2 * k + 1) h w stride y x hs hy0 hyh
          hx0 hxw e1
    · left
      have e1 : isMainRow tff (2 * k + 1) y = false := by rw [hc, e]; rfl
      refine ⟨b0.mpr e, fun hcopy => ?_, ?_⟩
      · have hmain := b1.mp hcopy
        rw [e1] at hmain
        exact Bool.noConfusion hmain
      · exact planeOutput_sample_of_main rp fresh tff (2 * k) h w stride y x hs hy0 hyh
          hx0 hxw e

/-- The parity example of C5: `tff = 1`, outputs 0, 1, 2 use sources 0, 0, 1 and mark the
even, odd, even rows main. -/
theorem output_pair_parity_witness :
    (src_n 0 = 0 ∧ src_n 1 = 0 ∧ src_n 2 = 1) ∧
      ∀ y : Int, (isMainRow 1 0 y = true ↔ y % 2 = 0) ∧ (isMainRow 1 1 y = true ↔ y % 2 = 1) ∧
        (isMainRow 1 2 y = true ↔ y % 2 = 0) := by
  have a := output_pair_parity 1 0 (fun _ => []) (fun _ => 0) (by decide)
  have b := output_pair_parity 1 1 (fun _ => []) (fun _ => 0) (by decide)
  refine ⟨⟨a.1.1, a.1.2, b.1.1⟩, fun y => ?_⟩
  exact ⟨(a.2.2.2.2.1 (by decide) y).1, (a.2.2.2.2.1 (by decide) y).2,
    (b.2.2.2.2.1 (by decide) y).1⟩

/-! ## Bounds of the source reads -/

theorem pixel_reads_rows (rp : Int → Nat) (tff n h stride y x : Int) :
    (pixel rp tff n h stride y x).reads.map Access.row =
      branchRows y (pixel rp tff n h stride y x).branch := by
  unfold pixel copyPixel reconstructPixel
  split_ifs <;> rfl

theorem pixel_reads_col (rp : Int → Nat) (tff n h stride y x : Int) :
    ∀ a ∈ (pixel rp tff n h stride y x).reads, a.col = x := by
  unfold pixel copyPixel reconstructPixel
  split_ifs <;> simp

theorem pixel_reads_row_bounds (rp : Int → Nat) (tff n h stride y x : Int)
    (hy0 : 0 ≤ y) (hyh : y < h)
    (hok : 2 ≤ h ∨ (pixel rp tff n h stride y x).branch = Branch.copy) :
    ∀ a ∈ (pixel rp tff n h stride y x).reads, 0 ≤ a.row ∧ a.row < h := by
  revert hok
  unfold pixel copyPixel reconstructPixel
  split_ifs with hm hc ht hb <;> simp <;> omega

/-- C7: for every plane height `h ≥ 2`, every row `y` in `[0,h)`, either field parity and every
column `x` in `[0,w)`, the rows read by the selected branch (`y` for copy; `y-3, y-1, y+1, y+3`
for cubic; `y+1` at the top edge; `y-1` at the bottom edge; `y-1, y+1` for linear) all lie in
`[0,h)`, and the column read is `x`. -/
theorem no_oob_read_height_ge_two (rp : Int → Nat) (tff n h w stride y x : Int)
    (hh : 2 ≤ h) (hy0 : 0 ≤ y) (hyh : y < h) (hx0 : 0 ≤ x) (hxw : x < w) :
    (pixel rp tff n h stride y x).reads.map Access.row =
        branchRows y (pixel rp tff n h stride y x).branch ∧
      (∀ r ∈ branchRows y (pixel rp tff n h stride y x).branch, 0 ≤ r ∧ r < h) ∧
      (∀ a ∈ (pixel rp tff n h stride y x).reads,
        (0 ≤ a.row ∧ a.row < h) ∧ (0 ≤ a.col ∧ a.col < w)) := by
  have hb := pixel_reads_row_bounds rp tff n h stride y x hy0 hyh (Or.inl hh)
  refine ⟨pixel_reads_rows rp tff n h stride y x, ?_, ?_⟩
  · intro r hr
    rw [← pixel_reads_rows, List.mem_map] at hr
    obtain ⟨a, ha, rfl⟩ := hr
    exact hb a ha
  · intro a ha
    refine ⟨hb a ha, ?_⟩
    rw [pixel_reads_col rp tff n h stride y x a ha]
    exact ⟨hx0, hxw⟩

/-- Instance of C7: height 2, output frame 1 with `tff = 1`; row 0 is rebuilt from row 1. -/
theorem no_oob_read_height_ge_two_witness :
    (pixel (fun _ => 0) 1 1 2 1 0 0).reads.map Access.row =
        branchRows 0 (pixel (fun _ => 0) 1 1 2 1 0 0).branch ∧
      (∀ r ∈ branchRows 0 (pixel (fun _ => 0) 1 1 2 1 0 0).branch, 0 ≤ r ∧ r < 2) ∧
      (∀ a ∈ (pixel (fun _ => 0) 1 1 2 1 0 0).reads,
        (0 ≤ a.row ∧ a.row < 2) ∧ (0 ≤ a.col ∧ a.col < 1)) :=
  no_oob_read_height_ge_two (fun _ => 0) 1 1 2 1 1 0 0
    (by decide) (by decide) (by decide) (by decide) (by decide)

/-- C6: the row loop evaluated on a plane with `h = 1`, `w = 1`, output frame 1, `tff = 1`.
The single row is not main, the top-edge branch (`y == 0`, source lines 73-75) runs, and the
only store of the plane reads source row 1, outside `[0,1)`: the bounds check that the source
comments call absolute misses the 1-high plane. -/
theorem height_one_reads_row_one :
    isMainRow 1 1 0 = false ∧
      (processPlane (fun _ => 0) 1 1 1 1 1).map (fun s => (s.branch, s.reads)) =
        [(Branch.edgeTop, [⟨1, 0⟩])] ∧
      ¬ (∀ s ∈ processPlane (fun _ => 0) 1 1 1 1 1, ∀ a ∈ s.reads, 0 ≤ a.row ∧ a.row < 1) := by
  refine ⟨by decide, by decide, ?_⟩
  intro hall
  have hmem : pixel (fun _ => 0) 1 1 1 1 0 0 ∈ processPlane (fun _ => 0) 1 1 1 1 1 := by
    rw [mem_processPlane]
    exact ⟨0, 0, by decide, by decide, rfl⟩
  exact absurd (hall _ hmem ⟨1, 0⟩ (by decide)).2 (by decide)

/-! ## Edge copy and linear tier -/

/-- C8: for every plane of height `h ≥ 2` and every column `x` in `[0,w)`, if row 0 is not a
main row then `output(0, x) = source(1, x)`, and if row `h-1` is not a main row then
`output(h-1, x) = source(h-2, x)`. -/
theorem edge_copy (rp wp : Int → Nat) (tff n h w stride x : Int) (hs : w ≤ stride)
    (hh : 2 ≤ h) (hx0 : 0 ≤ x) (hxw : x < w) :
    (isMainRow tff n 0 = false →
        sample (planeOutput rp wp tff n h w stride) stride 0 x = sample rp stride 1 x) ∧
      (isMainRow tff n (h - 1) = false →
        sample (planeOutput rp wp tff n h w stride) stride (h - 1) x =
          sample rp stride (h - 2) x) := by
  constructor
  · intro hm
    rw [planeOutput_sample rp wp tff n h w stride 0 x hs le_rfl (by omega) hx0 hxw,
      pixel_of_not_main rp tff n h stride 0 x (by simp [hm])]
    unfold reconstructPixel
    rw [if_neg (by omega), if_pos rfl]
    rfl
  · intro hm
    rw [planeOutput_sample rp wp tff n h w stride (h - 1) x hs (by omega) (by omega) hx0 hxw,
      pixel_of_not_main rp tff n h stride (h - 1) x (by simp [hm])]
    unfold reconstructPixel
    rw [if_neg (by omega), if_neg (by omega), if_pos rfl]
    show rp ((h - 1 - 1) * stride + x) = rp ((h - 2) * stride + x)
    rw [show h - 1 - 1 = h - 2 by omega]

/-- Instance of C8: a 1-wide plane of height 4 holding `10, 20, 30, 40`; output frame 1 with
`tff = 1` rebuilds row 0 from row 1, output frame 0 rebuilds row 3 from row 2. -/
theorem edge_copy_witness :
    sample (planeOutput (fun o => 10 * (o.toNat + 1)) (fun _ => 0) 1 1 4 1 1) 1 0 0 = 20 ∧
      sample (planeOutput (fun o => 10 * (o.toNat + 1)) (fun _ => 0) 1 0 4 1 1) 1 (4 - 1) 0 =
        30 :=
  ⟨(edge_copy (fun o => 10 * (o.toNat + 1)) (fun _ => 0) 1 1 4 1 1 0
      (by decide) (by decide) (by decide) (by decide)).1 (by decide),
    (edge_copy (fun o => 10 * (o.toNat + 1)) (fun _ => 0) 1 0 4 1 1 0
      (by decide) (by decide) (by decide) (by decide)).2 (by decide)⟩

/-- C9: for every non-main row `y` with `1 ≤ y ≤ h-2` outside the tier-1 range and every
column `x` in `[0,w)`, `output(y, x) = floor((source(y-1, x) + source(y+1, x)) / 2)`, the sum
being formed without 8-bit overflow; the result lies between the minimum and the maximum of
the two neighbours, hence in `[0,255]`. -/
theorem linear_tier_value (rp wp : Int → Nat) (tff n h w stride y x : Int) (hs : w ≤ stride)
    (hbyte : ∀ o, rp o ≤ 255) (hm : isMainRow tff n y = false)
    (hy1 : 1 ≤ y) (hy2 : y ≤ h - 2) (ht : ¬ (y ≥ 3 ∧ y < h - 3)) (hx0 : 0 ≤ x) (hxw : x < w) :
    sample (planeOutput rp wp tff n h w stride) stride y x =
        (sample rp stride (y - 1) x + sample rp stride (y + 1) x) / 2 ∧
      min (sample rp stride (y - 1) x) (sample rp stride (y + 1) x) ≤
        sample (planeOutput rp wp tff n h w stride) stride y x ∧
      sample (planeOutput rp wp tff n h w stride) stride y x ≤
        max (sample rp stride (y - 1) x) (sample rp stride (y + 1) x) ∧
      sample (planeOutput rp wp tff n h w stride) stride y x ≤ 255 := by
  have e : sample (planeOutput rp wp tff n h w stride) stride y x =
      (sample rp stride (y - 1) x + sample rp stride (y + 1) x) / 2 := by
    rw [planeOutput_sample rp wp tff n h w stride y x hs (by omega) (by omega) hx0 hxw,
      pixel_of_not_main rp tff n h stride y x (by simp [hm])]
    unfold reconstructPixel
    rw [if_neg ht, if_neg (by omega), if_neg (by omega)]
    show intToU8 (Int.tdiv ((rp ((y - 1) * stride + x) : Int) + rp ((y + 1) * stride + x)) 2) =
      (rp ((y - 1) * stride + x) + rp ((y + 1) * stride + x)) / 2
    have ha := hbyte ((y - 1) * stride + x)
    have hb := hbyte ((y + 1) * stride + x)
    rw [Int.tdiv_eq_ediv (by omega) (by decide)]
    unfold intToU8
    omega
  have ha := hbyte ((y - 1) * stride + x)
  have hb := hbyte ((y + 1) * stride + x)
  rw [e]
  unfold sample
  refine ⟨rfl, ?_, ?_, ?_⟩
  · rcases Nat.le_total (rp ((y - 1) * stride + x)) (rp ((y + 1) * stride + x)) with hle | hle
    · rw [min_eq_left hle]; omega
    · rw [min_eq_right hle]; omega
  · rcases Nat.le_total (rp ((y - 1) * stride + x)) (rp ((y + 1) * stride + x)) with hle | hle
    · rw [max_eq_right hle]; omega
    · rw [max_eq_left hle]; omega
  · omega

/-- Instance of C9: a 1-wide plane of height 4 holding `200, 7, 251, 9`; output frame 0 with
`tff = 1` rebuilds row 1 as `(200 + 251) / 2 = 225`, a sum that exceeds 8 bits. -/
theorem linear_tier_value_witness :
    sample (planeOutput (fun o => if o = 0 then 200 else if o = 2 then 251 else 7)
        (fun _ => 0) 1 0 4 1 1) 1 1 0 = 225 :=
  (linear_tier_value (fun o => if o = 0 then 200 else if o = 2 then 251 else 7)
    (fun _ => 0) 1 0 4 1 1 1 0 (by decide)
    (by intro o; dsimp only; split_ifs <;> decide) (by decide) (by decide) (by decide) (by decide)
    (by decide) (by decide)).1

/-! ## Destination writes -/

/-- C10: for a plane with height `h`, width `w` and stride `s ≥ w`, the row loop writes
destination offset `y*s + x` exactly once for every `(y, x)` with `0 ≤ y < h`, `0 ≤ x < w`,
distinct `(y, x)` give distinct offsets, no other offset is written, and the padding offsets
(`w ≤ x < s`) keep their previous content. -/
theorem destination_fully_written (rp wp : Int → Nat) (tff n h w s : Int) (hs : w ≤ s) :
    (∀ y x : Int, 0 ≤ y → y < h → 0 ≤ x → x < w →
        ((processPlane rp tff n h w s).map Store.offset).count (y * s + x) = 1) ∧
      (∀ y x y' x' : Int, 0 ≤ x → x < w → 0 ≤ x' → x' < w →
        y * s + x = y' * s + x' → y = y' ∧ x = x') ∧
      (∀ o ∈ (processPlane rp tff n h w s).map Store.offset,
        ∃ y x : Int, (0 ≤ y ∧ y < h) ∧ (0 ≤ x ∧ x < w) ∧ o = y * s + x) ∧
      (∀ y x : Int, w ≤ x → x < s →
        (y * s + x) ∉ (processPlane rp tff n h w s).map Store.offset ∧
          planeOutput rp wp tff n h w s (y * s + x) = wp (y * s + x)) := by
  have hmem : ∀ o, o ∈ (processPlane rp tff n h w s).map Store.offset ↔
      ∃ y x : Int, (0 ≤ y ∧ y < h) ∧ (0 ≤ x ∧ x < w) ∧ o = y * s + x := by
    intro o
    rw [processPlane_offsets]
    simp only [List.mem_flatMap, List.mem_map, mem_loopRange]
    constructor
    · rintro ⟨y, hy, x, hx, rfl⟩
      exact ⟨y, x, hy, hx, rfl⟩
    · rintro ⟨y, x, hy, hx, rfl⟩
      exact ⟨y, hy, x, hx, rfl⟩
  refine ⟨?_, ?_, fun o ho => (hmem o).mp ho, ?_⟩
  · intro y x hy0 hyh hx0 hxw
    exact List.count_eq_one_of_mem (processPlane_offsets_nodup rp tff n h w s hs)
      ((hmem _).mpr ⟨y, x, ⟨hy0, hyh⟩, ⟨hx0, hxw⟩, rfl⟩)
  · intro y x y' x' hx0 hxw hx0' hxw' e
    exact offset_inj hs hx0 hxw hx0' hxw' e
  · intro y x hwx hxs
    have hnot : (y * s + x) ∉ (processPlane rp tff n h w s).map Store.offset := by
      intro hin
      obtain ⟨y', x', _, hx', e⟩ := (hmem _).mp hin
      have := (offset_inj (le_refl s) (by omega) hxs hx'.1 (by omega) e).2
      omega
    exact ⟨hnot, runStores_of_not_mem _ wp _ hnot⟩

/-- Instance of C10: a 2-wide, 2-high plane of stride 3; offsets 0, 1, 3, 4 are written once
each and the padding offset 2 keeps its previous byte. -/
theorem destination_fully_written_witness :
    ((processPlane (fun _ => 0) 1 0 2 2 3).map Store.offset).count (1 * 3 + 1) = 1 ∧
      planeOutput (fun _ => 0) (fun _ => 77) 1 0 2 2 3 (0 * 3 + 2) = 77 :=
  ⟨(destination_fully_written (fun _ => 0) (fun _ => 77) 1 0 2 2 3 (by decide)).1 1 1
      (by decide) (by decide) (by decide) (by decide),
    ((destination_fully_written (fun _ => 0) (fun _ => 77) 1 0 2 2 3 (by decide)).2.2.2 0 2
      (by decide) (by decide)).2⟩

/-! ## Linear ramps -/

theorem cubic_round_clamp_spec_of_sum (p0 p1 p2 p3 m : Int)
    (hsum : -p0 + 9 * p1 + 9 * p2 - p3 = 16 * m) (hm0 : 0 ≤ m) (hm1 : m ≤ 255) :
    cubic_round_clamp_spec p0 p1 p2 p3 = m := by
  unfold cubic_round_clamp_spec
  simp only []
  rw [hsum]
  have hfloor : ⌊((16 * m : Int) : ℚ) / 16 + 1 / 2⌋ = m := by
    rw [Int.floor_eq_iff]
    push_cast
    constructor <;> linarith
  rw [hfloor]
  omega

theorem cubic_interpolate_of_sum (p0 p1 p2 p3 m : Int)
    (hsum : -p0 + 9 * p1 + 9 * p2 - p3 = 16 * m) (hm0 : 0 ≤ m) (hm1 : m ≤ 255) :
    (cubic_interpolate p0 p1 p2 p3 : Int) = m := by
  rw [cubic_interpolate_eq_spec, cubic_round_clamp_spec_of_sum p0 p1 p2 p3 m hsum hm0 hm1]

theorem reconstructPixel_cubic (rp : Int → Nat) (h stride y x : Int) (hc : y ≥ 3 ∧ y < h - 3) :
    (reconstructPixel rp h stride y x).branch = Branch.cubic ∧
      (reconstructPixel rp h stride y x).value =
        cubic_interpolate (sample rp stride (y - 3) x) (sample rp stride (y - 1) x)
          (sample rp stride (y + 1) x) (sample rp stride (y + 3) x) := by
  unfold reconstructPixel
  rw [if_pos hc]
  exact ⟨rfl, rfl⟩

theorem reconstructPixel_linear (rp : Int → Nat) (h stride y x : Int)
    (hc : ¬ (y ≥ 3 ∧ y < h - 3)) (h0 : y ≠ 0) (h1 : y ≠ h - 1) :
    (reconstructPixel rp h stride y x).branch = Branch.linear ∧
      (reconstructPixel rp h stride y x).value =
        intToU8 (Int.tdiv ((sample rp stride (y - 1) x : Int) + sample rp stride (y + 1) x) 2) := by
  unfold reconstructPixel
  rw [if_neg hc, if_neg h0, if_neg h1]
  exact ⟨rfl, rfl⟩

/-- C11: in a column whose source rows hold `a + d*y` with every value in `[0,255]`, for either
field parity every non-main row `y` with `1 ≤ y ≤ h-2` is rebuilt, by the linear or by the
cubic tier, as exactly `a + d*y`, and main rows are copied. -/
theorem linear_ramp_reproduced (rp wp : Int → Nat) (tff n h w stride x a d : Int)
    (hs : w ≤ stride) (hx0 : 0 ≤ x) (hxw : x < w)
    (hramp : ∀ y : Int, 0 ≤ y → y < h →
      (sample rp stride y x : Int) = a + d * y ∧ sample rp stride y x ≤ 255) :
    ∀ y : Int, 0 ≤ y → y < h →
      (isMainRow tff n y = true →
        (pixel rp tff n h stride y x).branch = Branch.copy ∧
          sample (planeOutput rp wp tff n h w stride) stride y x = sample rp stride y x) ∧
      (isMainRow tff n y = false → 1 ≤ y → y ≤ h - 2 →
        ((pixel rp tff n h stride y x).branch = Branch.linear ∨
            (pixel rp tff n h stride y x).branch = Branch.cubic) ∧
          (sample (planeOutput rp wp tff n h w stride) stride y x : Int) = a + d * y) := by
  intro y hy0 hyh
  constructor
  · intro hm
    exact ⟨(pixel_branch_copy_iff rp tff n h stride y x).mpr hm,
      planeOutput_sample_of_main rp wp tff n h w stride y x hs hy0 hyh hx0 hxw hm⟩
  · intro hm hy1 hy2
    rw [planeOutput_sample rp wp tff n h w stride y x hs hy0 hyh hx0 hxw,
      pixel_of_not_main rp tff n h stride y x (by simp [hm])]
    have hy := hramp y hy0 hyh
    by_cases hc : y ≥ 3 ∧ y < h - 3
    · obtain ⟨hb, hv⟩ := reconstructPixel_cubic rp h stride y x hc
      refine ⟨Or.inr hb, ?_⟩
      rw [hv]
      have r0 := hramp (y - 3) (by omega) (by omega)
      have r1 := hramp (y - 1) (by omega) (by omega)
      have r2 := hramp (y + 1) (by omega) (by omega)
      have r3 := hramp (y + 3) (by omega) (by omega)
      apply cubic_interpolate_of_sum
      · rw [r0.1, r1.1, r2.1, r3.1]
        ring
      · omega
      · omega
    · obtain ⟨hb, hv⟩ := reconstructPixel_linear rp h stride y x hc (by omega) (by omega)
      refine ⟨Or.inl hb, ?_⟩
      rw [hv]
      have r1 := hramp (y - 1) (by omega) (by omega)
      have r2 := hramp (y + 1) (by omega) (by omega)
      have e : (sample rp stride (y - 1) x : Int) + sample rp stride (y + 1) x =
          2 * (a + d * y) := by
        rw [r1.1, r2.1]
        ring
      rw [e, Int.tdiv_eq_ediv (by omega) (by decide)]
      unfold intToU8
      omega

/-- The end-to-end scenario of C11: the column `10, 20, ..., 80`, `tff = 1`, output frame 0.
Rows 0, 2, 4, 6 are copied, row 1 is linear and equals 20, row 3 is cubic and equals 40. -/
theorem linear_ramp_reproduced_witness :
    ((List.range 8).map fun y : Nat =>
        (pixel (fun o => if 0 ≤ o ∧ o < 8 then 10 * (o.toNat + 1) else 0) 1 0 8 1 y 0).branch) =
      [Branch.copy, Branch.linear, Branch.copy, Branch.cubic, Branch.copy, Branch.linear,
        Branch.copy, Branch.edgeBottom] ∧
      (pixel (fun o => if 0 ≤ o ∧ o < 8 then 10 * (o.toNat + 1) else 0) 1 0 8 1 3 0).reads =
        [⟨0, 0⟩, ⟨2, 0⟩, ⟨4, 0⟩, ⟨6, 0⟩] ∧
      (sample (planeOutput (fun o => if 0 ≤ o ∧ o < 8 then 10 * (o.toNat + 1) else 0)
          (fun _ => 0) 1 0 8 1 1) 1 1 0 : Int) = 20 ∧
      (sample (planeOutput (fun o => if 0 ≤ o ∧ o < 8 then 10 * (o.toNat + 1) else 0)
          (fun _ => 0) 1 0 8 1 1) 1 3 0 : Int) = 40 := by
  have hramp : ∀ y : Int, 0 ≤ y → y < 8 →
      (sample (fun o => if 0 ≤ o ∧ o < 8 then 10 * (o.toNat + 1) else 0) 1 y 0 : Int) =
        10 + 10 * y ∧
      sample (fun o => if 0 ≤ o ∧ o < 8 then 10 * (o.toNat + 1) else 0) 1 y 0 ≤ 255 := by
    intro y hy0 hy8
    unfold sample
    have e : y * 1 + 0 = y := by omega
    rw [e]
    dsimp only
    rw [if_pos ⟨hy0, hy8⟩]
    omega
  have key := linear_ramp_reproduced
    (fun o => if 0 ≤ o ∧ o < 8 then 10 * (o.toNat + 1) else 0) (fun _ => 0) 1 0 8 1 1 0 10 10
    (by decide) (by decide) (by decide) hramp
  refine ⟨by decide, by decide, ?_, ?_⟩
  · exact ((key 1 (by decide) (by decide)).2 (by decide) (by decide) (by decide)).2
  · exact ((key 3 (by decide) (by decide)).2 (by decide) (by decide) (by decide)).2

/-! ## Filter creation -/

theorem toInt32_of_bounds {v : Int} (h0 : -2147483648 ≤ v) (h1 : v < 2147483648) :
    toInt32 v = v := by
  unfold toInt32
  omega

theorem toInt64_of_bounds {v : Int} (h0 : -9223372036854775808 ≤ v)
    (h1 : v < 9223372036854775808) : toInt64 v = v := by
  unfold toInt64
  omega

theorem deinterlaceCreate_of_clip {F : Type} (node : VSNode F) (t : Option Int) :
    deinterlaceCreate { clip := some node, tff := t } =
      { error := none
        filters := [("StableDeinterlacer",
          { node.vi with
            fpsNum := toInt64 (node.vi.fpsNum * 2)
            numFrames := toInt32 (node.vi.numFrames * 2) },
          { node := node
            vi := { node.vi with
              fpsNum := toInt64 (node.vi.fpsNum * 2)
              numFrames := toInt32 (node.vi.numFrames * 2) }
            tff := match t with
              | some v => toInt32 v
              | none => 1 })] } :=
  rfl

/-- C12: when creation succeeds on a source clip with video info `(N, P, Q, width, height,
format)` and neither `2*N` nor `2*P` overflows its integer type, the one filter created has
`numFrames = 2*N`, `fpsNum = 2*P`, `fpsDen = Q` (so the rate `P/Q` is doubled when `Q ≠ 0`),
and unchanged width, height and format. -/
theorem count_and_rate_doubling {F : Type} (node : VSNode F) (t : Option Int)
    (hN : -2147483648 ≤ node.vi.numFrames * 2 ∧ node.vi.numFrames * 2 < 2147483648)
    (hP : -9223372036854775808 ≤ node.vi.fpsNum * 2 ∧
      node.vi.fpsNum * 2 < 9223372036854775808) :
    (deinterlaceCreate { clip := some node, tff := t }).error = none ∧
      (deinterlaceCreate { clip := some node, tff := t }).filters.map (fun f => f.2.1) =
        [doubled_info_spec node.vi] ∧
      (deinterlaceCreate { clip := some node, tff := t }).filters.map (fun f => f.2.2.vi) =
        [doubled_info_spec node.vi] ∧
      (doubled_info_spec node.vi).numFrames = 2 * node.vi.numFrames ∧
      (doubled_info_spec node.vi).fpsNum = 2 * node.vi.fpsNum ∧
      (doubled_info_spec node.vi).fpsDen = node.vi.fpsDen ∧
      (doubled_info_spec node.vi).width = node.vi.width ∧
      (doubled_info_spec node.vi).height = node.vi.height ∧
      (doubled_info_spec node.vi).format = node.vi.format ∧
      (node.vi.fpsDen ≠ 0 →
        ((doubled_info_spec node.vi).fpsNum : ℚ) / (doubled_info_spec node.vi).fpsDen =
          2 * ((node.vi.fpsNum : ℚ) / node.vi.fpsDen)) := by
  have e : ({ node.vi with
      fpsNum := toInt64 (node.vi.fpsNum * 2)
      numFrames := toInt32 (node.vi.numFrames * 2) } : VSVideoInfo F) =
      doubled_info_spec node.vi := by
    rw [toInt64_of_bounds hP.1 hP.2, toInt32_of_bounds hN.1 hN.2]
    unfold doubled_info_spec
    rw [mul_comm node.vi.fpsNum 2, mul_comm node.vi.numFrames 2]
  rw [deinterlaceCreate_of_clip]
  refine ⟨rfl, ?_, ?_, rfl, rfl, rfl, rfl, rfl, rfl, ?_⟩
  · simp only [List.map_cons, List.map_nil, e]
  · simp only [List.map_cons, List.map_nil, e]
  · intro _
    show ((2 * node.vi.fpsNum : Int) : ℚ) / node.vi.fpsDen = 2 * ((node.vi.fpsNum : ℚ) / node.vi.fpsDen)
    push_cast
    ring

/-- Instance of C12: a clip of 100 frames at 30000/1001 becomes 200 frames at 60000/1001. -/
theorem count_and_rate_doubling_witness :
    (deinterlaceCreate
        { clip := some
            { vi := { format := (), fpsNum := 30000, fpsDen := 1001, width := 720, height := 480,
                      numFrames := 100 }
              frames := fun _ => [] }
          tff := none }).filters.map (fun f => f.2.1) =
      [{ format := (), fpsNum := 60000, fpsDen := 1001, width := 720, height := 480,
         numFrames := 200 }] :=
  (count_and_rate_doubling
    { vi := { format := (), fpsNum := 30000, fpsDen := 1001, width := 720, height := 480,
              numFrames := 100 }
      frames := fun _ => [] } none (by decide) (by decide)).2.1

/-- C13: if the `clip` argument is absent, `deinterlaceCreate` sets the error
"StableDeinterlacer: clip is required." and creates no filter, so no frame callback exists;
if `clip` is present, no error is set and exactly one filter is created. -/
theorem missing_clip_fails_fast {F : Type} :
    (∀ t : Option Int,
      deinterlaceCreate ({ clip := none, tff := t } : InMap F) =
        { error := some "StableDeinterlacer: clip is required.", filters := [] }) ∧
    (∀ (node : VSNode F) (t : Option Int),
      (deinterlaceCreate { clip := some node, tff := t }).error = none ∧
        (deinterlaceCreate { clip := some node, tff := t }).filters.length = 1) := by
  constructor
  · intro t
    rfl
  · intro node t
    rw [deinterlaceCreate_of_clip]
    exact ⟨rfl, rfl⟩

theorem isMainRow_of_ne_zero (t n y : Int) (ht : t ≠ 0) : isMainRow t n y = isMainRow 1 n y := by
  unfold isMainRow output_is_based_on_top_field
  rw [if_pos ht, if_pos (by decide)]

/-- C14 as stated fails: the argument `tff = 4294967296` is present and non-zero, but the
filter is created with `tff = 0`, so row 0 of output frame 0 is not main although it is main
when `tff` is set. -/
theorem tff_wide_value_truncated :
    (deinterlaceCreate
        { clip := some
            { vi := { format := (), fpsNum := 30000, fpsDen := 1001, width := 720, height := 480,
                      numFrames := 100 }
              frames := fun _ => [] }
          tff := some 4294967296 }).filters.map (fun f => f.2.2.tff) = [0] ∧
      isMainRow 0 0 0 = false ∧ isMainRow 4294967296 0 0 = true := by
  refine ⟨?_, by decide, by decide⟩
  rw [deinterlaceCreate_of_clip]
  decide

/-- C14 amended: when the `tff` argument is absent the filter is created with `tff = 1`, so
for every output index and row the classification is the one of any non-zero `tff` (output
frame 0 has the even rows main); when `tff` is present the filter uses its value converted to
`int`, which is the value itself whenever it lies in `[-2^31, 2^31)`. -/
theorem default_tff_amended {F : Type} (node : VSNode F) :
    (deinterlaceCreate { clip := some node, tff := none }).filters.map (fun f => f.2.2.tff) =
        [1] ∧
      (∀ t n y : Int, t ≠ 0 → isMainRow 1 n y = isMainRow t n y) ∧
      (∀ (t n h stride y x : Int) (rp : Int → Nat), t ≠ 0 →
        (pixel rp 1 n h stride y x).branch = (pixel rp t n h stride y x).branch) ∧
      (∀ y : Int, isMainRow 1 0 y = true ↔ y % 2 = 0) ∧
      (∀ v : Int,
        (deinterlaceCreate { clip := some node, tff := some v }).filters.map
          (fun f => f.2.2.tff) = [toInt32 v]) ∧
      (∀ v : Int, -2147483648 ≤ v → v < 2147483648 →
        (deinterlaceCreate { clip := some node, tff := some v }).filters.map
          (fun f => f.2.2.tff) = [v]) := by
  refine ⟨?_, ?_, ?_, ?_, ?_, ?_⟩
  · rw [deinterlaceCreate_of_clip]
    rfl
  · intro t n y ht
    exact (isMainRow_of_ne_zero t n y ht).symm
  · intro t n h stride y x rp ht
    unfold pixel
    rw [isMainRow_of_ne_zero t n y ht]
  · intro y
    rw [isMainRow_iff (le_refl 0)]
    unfold is_top_field_main_spec
    simp
  · intro v
    rw [deinterlaceCreate_of_clip]
    rfl
  · intro v h0 h1
    rw [deinterlaceCreate_of_clip]
    show [toInt32 v] = [v]
    rw [toInt32_of_bounds h0 h1]

/-- Instance of the amended C14: `tff = 0` is passed on unchanged. -/
theorem default_tff_amended_witness :
    (deinterlaceCreate
        { clip := some
            { vi := { format := (), fpsNum := 25, fpsDen := 1, width := 720, height := 576,
                      numFrames := 50 }
              frames := fun _ => [] }
          tff := some 0 }).filters.map (fun f => f.2.2.tff) = [0] :=
  (default_tff_amended
    { vi := { format := (), fpsNum := 25, fpsDen := 1, width := 720, height := 576,
              numFrames := 50 }
      frames := fun _ => [] }).2.2.2.2.2 0 (by decide) (by decide)

/-! ## Dependence on the main field -/

theorem isMainRow_of_odd_distance (tff n y r : Int) (hm : isMainRow tff n y = false)
    (hodd : (r - y) % 2 = 1) : isMainRow tff n r = true := by
  have hy := isMainRow_iff' tff n y
  rw [hm] at hy
  rw [isMainRow_iff']
  cases hO : output_is_based_on_top_field tff n <;> rw [hO] at hy <;>
    simp only [Bool.false_eq_true, false_iff, iff_false, iff_true, not_not, not_false_eq_true,
      not_true_eq_false] at hy ⊢ <;>
    omega

theorem pixel_reads_main (rp : Int → Nat) (tff n h stride y x : Int) :
    ∀ a ∈ (pixel rp tff n h stride y x).reads, isMainRow tff n a.row = true := by
  by_cases hm : isMainRow tff n y = true
  · rw [pixel_of_main rp tff n h stride y x hm]
    intro a ha
    simp only [copyPixel, List.mem_singleton] at ha
    rw [ha]
    exact hm
  · rw [pixel_of_not_main rp tff n h stride y x hm]
    have hm' : isMainRow tff n y = false := by simpa using hm
    intro a ha
    apply isMainRow_of_odd_distance tff n y a.row hm'
    revert ha
    unfold reconstructPixel
    split_ifs <;> intro ha <;>
      simp only [List.mem_cons, List.mem_singleton, List.not_mem_nil, or_false] at ha <;>
      rcases ha with rfl | rfl | rfl | rfl <;> simp only [] <;> omega

/-- C15: for every plane height `h ≥ 2`, every output index and `tff`, two source planes of the
same dimensions that agree on every main row give output planes that agree at every
`(y, x)`; every source cell read lies on a main row of the plane. -/
theorem output_depends_on_main_field (rp rq wp : Int → Nat) (tff n h w stride : Int)
    (hs : w ≤ stride) (hh : 2 ≤ h) (hn : 0 ≤ n)
    (hagree : ∀ y x : Int, 0 ≤ y → y < h → 0 ≤ x → x < w →
      (y % 2 = 0 ↔ is_top_field_main_spec n tff) →
      sample rp stride y x = sample rq stride y x) :
    (∀ y x : Int, 0 ≤ y → y < h → 0 ≤ x → x < w →
        sample (planeOutput rp wp tff n h w stride) stride y x =
          sample (planeOutput rq wp tff n h w stride) stride y x) ∧
      (∀ y x : Int, 0 ≤ y → y < h → 0 ≤ x → x < w →
        ∀ a ∈ (pixel rp tff n h stride y x).reads,
          (a.row % 2 = 0 ↔ is_top_field_main_spec n tff) ∧ (0 ≤ a.row ∧ a.row < h) ∧
            a.col = x) := by
  have hreads : ∀ y x : Int, 0 ≤ y → y < h → 0 ≤ x → x < w →
      ∀ a ∈ (pixel rp tff n h stride y x).reads,
        (a.row % 2 = 0 ↔ is_top_field_main_spec n tff) ∧ (0 ≤ a.row ∧ a.row < h) ∧
          a.col = x := by
    intro y x hy0 hyh _ _ a ha
    exact ⟨(isMainRow_iff hn tff a.row).mp (pixel_reads_main rp tff n h stride y x a ha),
      pixel_reads_row_bounds rp tff n h stride y x hy0 hyh (Or.inl hh) a ha,
      pixel_reads_col rp tff n h stride y x a ha⟩
  refine ⟨?_, hreads⟩
  intro y x hy0 hyh hx0 hxw
  rw [planeOutput_sample rp wp tff n h w stride y x hs hy0 hyh hx0 hxw,
    planeOutput_sample rq wp tff n h w stride y x hs hy0 hyh hx0 hxw,
    pixel_congr_reads rp rq tff n h stride y x]
  intro a ha
  obtain ⟨hmain, hrow, hcol⟩ := hreads y x hy0 hyh hx0 hxw a ha
  have := hagree a.row a.col hrow.1 hrow.2 (by omega) (by omega) hmain
  exact this

/-- Instance of C15: two 1-wide planes of height 2 that differ only on the odd row give the
same output frame 0 under `tff = 1`. -/
theorem output_depends_on_main_field_witness :
    sample (planeOutput (fun o => if o = 0 then 5 else 9) (fun _ => 0) 1 0 2 1 1) 1 1 0 =
      sample (planeOutput (fun o => if o = 0 then 5 else 200) (fun _ => 0) 1 0 2 1 1) 1 1 0 :=
  (output_depends_on_main_field (fun o => if o = 0 then 5 else 9)
    (fun o => if o = 0 then 5 else 200) (fun _ => 0) 1 0 2 1 1
    (by decide) (by decide) (by decide)
    (by
      intro y x hy0 hy2 hx0 hx1 hmain
      have hx : x = 0 := by omega
      have hy : y = 0 := by
        have htop : is_top_field_main_spec 0 1 := by decide
        have := hmain.mpr htop
        omega
      subst hx
      subst hy
      rfl)).1 1 0 (by decide) (by decide) (by decide) (by decide)

/-! ## Tier ranges -/

theorem reconstructPixel_branch_cubic_iff (rp : Int → Nat) (h stride y x : Int) :
    (reconstructPixel rp h stride y x).branch = Branch.cubic ↔ tier1_range h y := by
  unfold reconstructPixel tier1_range
  split_ifs with hc <;> simp [hc]

theorem pixel_branch_cubic_iff (rp : Int → Nat) (tff n h stride y x : Int) :
    (pixel rp tff n h stride y x).branch = Branch.cubic ↔
      (isMainRow tff n y = false ∧ tier1_range h y) := by
  have key := pixel_rowClass_iff rp tff n h stride y x RowClass.tier1Cubic
  rw [← show rowClassApplies tff n h y RowClass.tier1Cubic ↔
    (isMainRow tff n y = false ∧ tier1_range h y) from Iff.rfl, ← key]
  cases (pixel rp tff n h stride y x).branch <;> simp [Branch.rowClass]

/-- C16 as stated fails: at height 6 row 3 does not satisfy `y >= 3 and y < height - 3`
(the bound is `y < 3`), so the set of tier-1 rows is not `{3}`; a non-main row 3 takes the
linear tier. -/
theorem tier1_height_six_excludes_three :
    ¬ tier1_range 6 3 ∧
      ¬ (∀ y : Int, (0 ≤ y ∧ y < 6 ∧ tier1_range 6 y) ↔ y = 3) ∧
      isMainRow 1 0 3 = false ∧
      (pixel (fun _ => 0) 1 0 6 1 3 0).branch = Branch.linear := by
  have h3 : ¬ tier1_range 6 3 := by
    unfold tier1_range
    decide
  refine ⟨h3, ?_, by decide, by decide⟩
  intro hall
  exact h3 ((hall 3).mpr rfl).2.2

/-- C16 amended: for a plane with `height = 6` no row satisfies the tier-1 range condition
`y >= 3 and y < height - 3`: the set of cubic rows in `[0,6)` is empty. -/
theorem tier1_height_six_empty :
    (∀ y : Int, ¬ tier1_range 6 y) ∧
      (loopRange 6).filter (fun y => decide (y ≥ 3 ∧ y < 6 - 3)) = [] ∧
      (∀ (rp : Int → Nat) (tff n stride y x : Int),
        (pixel rp tff n 6 stride y x).branch ≠ Branch.cubic) := by
  have hnone : ∀ y : Int, ¬ tier1_range 6 y := by
    intro y
    unfold tier1_range
    omega
  refine ⟨hnone, by decide, ?_⟩
  intro rp tff n stride y x hb
  exact hnone y ((pixel_branch_cubic_iff rp tff n 6 stride y x).mp hb).2

/-- C17: for every height `h ≥ 1` and row `y` in `[0,h)`, the cubic branch condition holds iff
the four reference rows `y-3, y-1, y+1, y+3` are all valid indices, iff `3 ≤ y ≤ h-4`; a
non-main row with all four references available is cubic; no height below 7 has a cubic row
and height 7 has one (row 3). -/
theorem tier1_iff_four_taps_valid (rp : Int → Nat) (h stride y x : Int)
    (hh : 1 ≤ h) (hy0 : 0 ≤ y) (hyh : y < h) :
    ((reconstructPixel rp h stride y x).branch = Branch.cubic ↔ four_taps_valid h y) ∧
      (four_taps_valid h y ↔ (3 ≤ y ∧ y ≤ h - 4)) ∧
      (∀ tff n : Int, isMainRow tff n y = false → four_taps_valid h y →
        (pixel rp tff n h stride y x).branch = Branch.cubic) ∧
      (h < 7 → (reconstructPixel rp h stride y x).branch ≠ Branch.cubic) ∧
      (reconstructPixel rp 7 stride 3 x).branch = Branch.cubic := by
  have hvalid : four_taps_valid h y ↔ (3 ≤ y ∧ y ≤ h - 4) := by
    unfold four_taps_valid
    simp only [List.mem_cons, List.mem_singleton, List.not_mem_nil, or_false, forall_eq_or_imp,
      forall_eq]
    omega
  have hcode : (reconstructPixel rp h stride y x).branch = Branch.cubic ↔
      four_taps_valid h y := by
    rw [reconstructPixel_branch_cubic_iff, hvalid]
    unfold tier1_range
    omega
  refine ⟨hcode, hvalid, ?_, ?_, ?_⟩
  · intro tff n hm hv
    rw [pixel_branch_cubic_iff]
    exact ⟨hm, (reconstructPixel_branch_cubic_iff rp h stride y x).mp (hcode.mpr hv)⟩
  · intro h7 hb
    have := hvalid.mp (hcode.mp hb)
    omega
  · rw [reconstructPixel_branch_cubic_iff]
    unfold tier1_range
    decide

/-- Instance of C17: height 8, row 4. -/
theorem tier1_iff_four_taps_valid_witness :
    (reconstructPixel (fun _ => 0) 8 1 4 0).branch = Branch.cubic ↔ four_taps_valid 8 4 :=
  (tier1_iff_four_taps_valid (fun _ => 0) 8 1 4 0 (by decide) (by decide) (by decide)).1

/-- C18: for every height `h ≥ 1` and every non-main row `y` in `[0,h)`, the linear branch is
taken iff `1 ≤ y ≤ h-2` and `y` is one of `1, 2, h-2, h-3`. -/
theorem linear_tier_row_set (rp : Int → Nat) (tff n h stride y x : Int)
    (hh : 1 ≤ h) (hy0 : 0 ≤ y) (hyh : y < h) (hm : isMainRow tff n y = false) :
    ((pixel rp tff n h stride y x).branch = Branch.linear ↔
        (1 ≤ y ∧ y ≤ h - 2 ∧ near_edge_row h y)) ∧
      ((pixel rp tff n h stride y x).branch = Branch.linear → near_edge_row h y) := by
  have key : (pixel rp tff n h stride y x).branch = Branch.linear ↔
      (1 ≤ y ∧ y ≤ h - 2 ∧ near_edge_row h y) := by
    rw [pixel_of_not_main rp tff n h stride y x (by simp [hm])]
    unfold reconstructPixel near_edge_row
    split_ifs with hc h0 h1 <;> simp only [reduceCtorEq, false_iff, true_iff] <;> omega
  exact ⟨key, fun hb => (key.mp hb).2.2⟩

/-- Instance of C18: height 7, output frame 1 with `tff = 1` (odd rows main), row 4 = h-3. -/
theorem linear_tier_row_set_witness :
    (pixel (fun _ => 0) 1 1 7 1 4 0).branch = Branch.linear ↔
      ((1 : Int) ≤ 4 ∧ (4 : Int) ≤ 7 - 2 ∧ near_edge_row 7 4) :=
  (linear_tier_row_set (fun _ => 0) 1 1 7 1 4 0 (by decide) (by decide) (by decide)
    (by decide)).1

/-! ## Vertically constant planes -/

theorem cubic_interpolate_const (v : Nat) (hv : v ≤ 255) :
    cubic_interpolate v v v v = v := by
  have h := cubic_interpolate_of_sum v v v v v (by ring) (by omega) (by omega)
  exact_mod_cast h

/-- C19: for every plane of height `h ≥ 2` whose rows are all equal (`source(y, x) = c(x)`,
`c(x)` in `[0,255]`), for every output index and `tff` the output plane equals the source
plane at every `(y, x)` of the plane; in particular `cubic_interpolate(c,c,c,c) = c`. -/
theorem constant_plane_fixed_point (rp wp : Int → Nat) (c : Int → Nat)
    (tff n h w stride : Int) (hs : w ≤ stride) (hh : 2 ≤ h)
    (hconst : ∀ y x : Int, 0 ≤ y → y < h → 0 ≤ x → x < w → sample rp stride y x = c x)
    (hc : ∀ x : Int, 0 ≤ x → x < w → c x ≤ 255) :
    (∀ y x : Int, 0 ≤ y → y < h → 0 ≤ x → x < w →
        sample (planeOutput rp wp tff n h w stride) stride y x = sample rp stride y x) ∧
      (∀ v : Nat, v ≤ 255 → cubic_interpolate v v v v = v) := by
  refine ⟨?_, cubic_interpolate_const⟩
  intro y x hy0 hyh hx0 hxw
  have hcx := hc x hx0 hxw
  have hrow : ∀ r : Int, 0 ≤ r → r < h → sample rp stride r x = c x :=
    fun r hr0 hrh => hconst r x hr0 hrh hx0 hxw
  by_cases hm : isMainRow tff n y = true
  · exact planeOutput_sample_of_main rp wp tff n h w stride y x hs hy0 hyh hx0 hxw hm
  · rw [planeOutput_sample rp wp tff n h w stride y x hs hy0 hyh hx0 hxw,
      pixel_of_not_main rp tff n h stride y x hm, hrow y hy0 hyh]
    by_cases hcub : y ≥ 3 ∧ y < h - 3
    · rw [(reconstructPixel_cubic rp h stride y x hcub).2, hrow (y - 3) (by omega) (by omega),
        hrow (y - 1) (by omega) (by omega), hrow (y + 1) (by omega) (by omega),
        hrow (y + 3) (by omega) (by omega)]
      exact cubic_interpolate_const (c x) hcx
    · by_cases h0 : y = 0
      · unfold reconstructPixel
        rw [if_neg hcub, if_pos h0]
        exact hrow (y + 1) (by omega) (by omega)
      · by_cases h1 : y = h - 1
        · unfold reconstructPixel
          rw [if_neg hcub, if_neg h0, if_pos h1]
          exact hrow (y - 1) (by omega) (by omega)
        · rw [(reconstructPixel_linear rp h stride y x hcub h0 h1).2,
            hrow (y - 1) (by omega) (by omega), hrow (y + 1) (by omega) (by omega),
            Int.tdiv_eq_ediv (by omega) (by decide)]
          unfold intToU8
          omega

/-- Instance of C19: a 1-wide plane of height 8 with every row equal to 77; output frame 0
with `tff = 1` rebuilds the cubic row 3 as 77. -/
theorem constant_plane_fixed_point_witness :
    sample (planeOutput (fun _ => 77) (fun _ => 0) 1 0 8 1 1) 1 3 0 =
      sample (fun _ => 77) 1 3 0 :=
  (constant_plane_fixed_point (fun _ => 77) (fun _ => 0) (fun _ => 77) 1 0 8 1 1
    (by decide) (by decide) (fun _ _ _ _ _ _ => rfl) (fun _ _ _ => Nat.le_of_ble_eq_true rfl)).1 3 0
    (by decide) (by decide) (by decide) (by decide)

end HybridDeinterlacer
